import Mathlib

/-!
Verification of the Emissionary OCR receipt pipeline
(`src/ocr-service/main.py`, with supporting data in
`src/ocr-service/emissions_db.py`).

The pipeline under study is pure string/number processing:
`extract_receipt_info` (candidate-line extraction, dictionary/fuzzy
resolution, semantic-fallback resolution, unknown fallback, unknown-items
logging) followed by `calculate_carbon_emissions` and the pydantic
`ReceiptItem` conversion in the `/ocr` endpoint.

External collaborators are modelled as explicit function parameters
(oracles):
  * `fuzzy` — `fuzzy_match_food` (rapidfuzz over `food_dictionary.csv`,
    both external to the python text under study);
  * `llmRaw` — the raw Groq HTTP call inside
    `call_llm_for_semantic_parse` (the surrounding error handling is
    embedded);
  * `llmEst` — `estimate_emissions_with_llm`;
  * `patMatch` / `lastPrices` / `nameBefore` — the `re` regex-engine
    primitives used by the candidate extraction (the control flow around
    them, in particular the `price > 100` guards, is embedded).

Python floats are modelled as `ℚ`; the arithmetic in this code is
restricted to `*`, `+`, comparisons and constant literals, so the
rational model matches the float computation up to floating-point
rounding.  Machine strings are modelled as `String`/`List Char` with
ASCII case mapping (receipt text is ASCII by construction: Tesseract is
run with an ASCII whitelist).
-/

namespace Emissionary

/-! ### Character and string primitives (Python `str` operations) -/

/-- ASCII lower-casing of one character (`str.lower`). -/
def asciiLower (c : Char) : Char :=
  if 'A' ≤ c ∧ c ≤ 'Z' then Char.ofNat (c.toNat + 32) else c

/-- ASCII upper-casing of one character (`str.upper`). -/
def asciiUpper (c : Char) : Char :=
  if 'a' ≤ c ∧ c ≤ 'z' then Char.ofNat (c.toNat - 32) else c

/-- Python `\s` / `str.strip` whitespace. -/
def pySpace (c : Char) : Bool :=
  c = ' ' ∨ c = '\t' ∨ c = '\n' ∨ c = '\x0d' ∨ c = '\x0b' ∨ c = '\x0c'

/-- Python `\d` (ASCII). -/
def isDigitChar (c : Char) : Bool := '0' ≤ c ∧ c ≤ '9'

def isUpperChar (c : Char) : Bool := 'A' ≤ c ∧ c ≤ 'Z'

def isLowerChar (c : Char) : Bool := 'a' ≤ c ∧ c ≤ 'z'

/-- Python `\w` (ASCII): `[A-Za-z0-9_]`. -/
def isWordChar (c : Char) : Bool :=
  isUpperChar c ∨ isLowerChar c ∨ isDigitChar c ∨ c = '_'

/-- Python `str.isalpha` for one character (ASCII). -/
def isAlphaChar (c : Char) : Bool := isUpperChar c ∨ isLowerChar c

def lowerL (l : List Char) : List Char := l.map asciiLower

def upperL (l : List Char) : List Char := l.map asciiUpper

/-- Python `str.strip()`. -/
def pyStripL (l : List Char) : List Char :=
  ((l.dropWhile pySpace).reverse.dropWhile pySpace).reverse

def pyStrip (s : String) : String := String.mk (pyStripL s.toList)

/-- `needle in hay` for Python strings (substring containment). -/
def containsSub (needle hay : List Char) : Bool :=
  hay.tails.any (fun t => needle.isPrefixOf t)

/-- `kw in hay` where `kw` is a string literal. -/
def containsStr (kw : String) (hay : List Char) : Bool :=
  containsSub kw.toList hay

/-- `re.search(r'^<class>{n,}', s)`: the first `n` characters all lie in
the class. -/
def startsRun (p : Char → Bool) (n : Nat) (l : List Char) : Bool :=
  n ≤ (l.takeWhile p).length

/-- `re.search(r'^[A-Z]{2,}\d+', s)`: an initial run of at least two
upper-case letters followed directly by a digit (upper-case letters and
digits are disjoint, so the greedy run is exact). -/
def upperRunThenDigit (l : List Char) : Bool :=
  2 ≤ (l.takeWhile isUpperChar).length ∧
    ((l.dropWhile isUpperChar).head?.map isDigitChar).getD false

/-- `re.search(r'<kw>\d+', s)`: the literal `kw` somewhere in `s`,
followed directly by a digit. -/
def litThenDigit (kw : String) (l : List Char) : Bool :=
  l.tails.any (fun t =>
    kw.toList.isPrefixOf t ∧
      ((t.drop kw.toList.length).head?.map isDigitChar).getD false)

/-- `str.split()` (split on whitespace runs, no empty tokens). -/
def pySplitAux : List Char → List Char → List (List Char)
  | [], acc => if acc.isEmpty then [] else [acc.reverse]
  | c :: cs, acc =>
    if pySpace c then
      if acc.isEmpty then pySplitAux cs [] else acc.reverse :: pySplitAux cs []
    else pySplitAux cs (c :: acc)

def pySplit (l : List Char) : List (List Char) := pySplitAux l []

/-- `float(t)` on a string of ASCII digits (`str.isdigit` guarded). -/
def parseDigits (l : List Char) : Nat :=
  l.foldl (fun a c => a * 10 + (c.toNat - 48)) 0

/-- Python `str.isdigit` (ASCII). -/
def isDigitsTok (l : List Char) : Bool := ¬ l.isEmpty ∧ l.all isDigitChar

/-- `text.split('\n')` (keeps empty segments, unlike `str.split()`). -/
def splitNlAux : List Char → List Char → List (List Char)
  | [], acc => [acc.reverse]
  | c :: cs, acc =>
    if c = '\n' then acc.reverse :: splitNlAux cs []
    else splitNlAux cs (c :: acc)

def splitNl (s : String) : List String :=
  (splitNlAux s.toList []).map String.mk

/-! ### `is_likely_food_item` (main.py lines 668-723) -/

/-- The `non_food_patterns` literal-substring entries, in source order
(the regexes `walmart`, `store`, …, `subtotal` contain no
metacharacters and are plain substring searches under `re.search`). -/
def nonFoodLiterals : List String :=
  ["walmart", "store", "address", "phone", "account", "ref", "terminal",
   "network", "appr", "code", "teacher", "appreciation", "art",
   "drsmith", "patrol", "brnmsanml", "debit", "change", "balance",
   "total", "tax", "subtotal"]

/-- `re.search` of each entry of `non_food_patterns` against the
lower-cased name: `^[A-Z0-9]{8,}`, `^\d{8,}`, `^[A-Z]{2,}\d+`, the plain
substrings, and `st\d+` / `com\d+`. -/
def nonFoodHit (nl : List Char) : Bool :=
  startsRun (fun c => isUpperChar c ∨ isDigitChar c) 8 nl ∨
  startsRun isDigitChar 8 nl ∨
  upperRunThenDigit nl ∨
  nonFoodLiterals.any (fun kw => containsStr kw nl) ∨
  litThenDigit "st" nl ∨
  litThenDigit "com" nl

/-- The `food_keywords` list of `is_likely_food_item`, verbatim. -/
def food_keywords : List String :=
  ["apple", "banana", "orange", "tomato", "potato", "carrot", "lettuce",
   "onion", "chicken", "beef", "pork", "fish", "salmon", "tuna", "milk",
   "cheese", "yogurt", "bread", "rice", "pasta", "cereal", "coffee",
   "tea", "juice", "soda", "beer", "wine", "chocolate", "candy", "chips",
   "cookies", "butter", "eggs", "cream", "almond", "peanut", "walnut",
   "olive", "oil", "ketchup", "mayo", "mustard", "soy", "sauce", "hot",
   "baby", "diaper", "wipe", "dog", "cat", "detergent", "paper", "towel",
   "frozen", "canned", "organic", "fresh", "food", "snack", "drink",
   "beverage", "meat", "dairy", "fruit", "vegetable", "grain", "nut",
   "seed", "spice", "herb", "condiment", "sauce", "dressing", "spread"]

/-- `is_likely_food_item(item_name)` (main.py 668-723): reject empty or
one-character names, reject any non-food-pattern hit on the lower-cased
name, then require at least one food keyword as a substring. -/
def is_likely_food_item (item_name : String) : Bool :=
  let l := item_name.toList
  if l.isEmpty ∨ l.length < 2 then false
  else
    let nl := lowerL l
    if nonFoodHit nl then false
    else food_keywords.any (fun kw => containsStr kw nl)

/-! ### Data model

`safe_str` (main.py 594-598) is the identity on actual strings
(`safe_str(s) = str(s) if s else "" = s`) and maps `None` to `""`; on
the typed fields below it is therefore either the identity or
`Option.getD ""`.  `safe_float` (600-607) is the identity on
`Option ℚ`-modelled values.  Both are inlined where they occur. -/

/-- A row of `food_dictionary.csv` as used by `extract_receipt_info`
(fields `canonical`, `category`, `emissions_kg_per_kg`; the last one
passes through `safe_float`, hence `Option ℚ`). -/
structure DictRow where
  canonical : String
  category : String
  emissions_kg_per_kg : Option ℚ
deriving DecidableEq

/-- A candidate line (the dicts appended to `candidate_lines`,
main.py 408-413 and 449-454). -/
structure Candidate where
  name : String
  price : ℚ
  quantity : ℚ
  original_line : String
deriving DecidableEq

/-- The sanitized response of `call_llm_for_semantic_parse`
(main.py 902-1029). -/
structure LLMParse where
  is_food_item : Bool
  canonical_name : String
  category : String
  estimated_weight_kg : Option ℚ
  estimated_carbon_emissions_kg : Option ℚ
deriving DecidableEq

/-- The safe fallback returned on missing API key or on any exception
(timeout, network error, malformed response) in
`call_llm_for_semantic_parse` (main.py 904-912 and 1020-1029). -/
def llmFallback : LLMParse :=
  ⟨false, "unknown", "unknown", none, none⟩

/-- `call_llm_for_semantic_parse`: the raw collaborator call `raw` may
fail (`Except.error`); every failure path of the python function returns
`llmFallback`. -/
def call_llm_for_semantic_parse (raw : String → Except Unit LLMParse)
    (line_text : String) : LLMParse :=
  match raw line_text with
  | .ok r => r
  | .error _ => llmFallback

/-- One item dict as built by `extract_receipt_info` and consumed by
`calculate_carbon_emissions`.  `Option` fields model keys that may be
absent or `None` (`dict.get` treats both alike). -/
structure ItemDict where
  name : String
  total_price : Option ℚ
  quantity : Option ℚ
  confidence : Option ℚ
  category : String
  emissions_kg_per_kg : Option ℚ
  original_name : String
  original_line : String
  source : String
  estimated_weight_kg : Option ℚ
  carbon_emissions : Option ℚ
deriving DecidableEq

/-- One line of `unknown_items.log`: `log_unknown_item(item_name,
original_line)` (main.py 110-112); the wall-clock timestamp is not
modelled. -/
structure LogEntry where
  item_name : String
  original_line : String
deriving DecidableEq

def entryOf (c : Candidate) : LogEntry := ⟨c.name, c.original_line⟩

/-! ### Resolution waterfall (`extract_receipt_info`, main.py 461-553) -/

/-- The dict appended for a dictionary (fuzzy) match (main.py 484-495). -/
def mkDictItem (c : Candidate) (row : DictRow) (confidence : ℚ) : ItemDict :=
  { name := row.canonical
    total_price := some c.price
    quantity := some c.quantity
    confidence := some confidence
    category := row.category
    emissions_kg_per_kg := row.emissions_kg_per_kg
    original_name := c.name
    original_line := c.original_line
    source := "dictionary"
    estimated_weight_kg := none
    carbon_emissions := none }

/-- The dict appended for a positive semantic-fallback result
(main.py 507-519). -/
def mkLLMItem (c : Candidate) (r : LLMParse) : ItemDict :=
  { name := r.canonical_name
    total_price := some c.price
    quantity := some c.quantity
    confidence := some (7/10)
    category := r.category
    emissions_kg_per_kg := none
    original_name := c.name
    original_line := c.original_line
    source := "llm"
    estimated_weight_kg := r.estimated_weight_kg
    carbon_emissions := r.estimated_carbon_emissions_kg }

/-- The dict appended by the no-items fallback (main.py 527-539). -/
def mkUnknownItem (c : Candidate) : ItemDict :=
  { name := c.name
    total_price := some c.price
    quantity := some c.quantity
    confidence := some (3/10)
    category := "unknown"
    emissions_kg_per_kg := none
    original_name := c.name
    original_line := c.original_line
    source := "unknown"
    estimated_weight_kg := none
    carbon_emissions := none }

/-- Dictionary pass (main.py 481-496): one fuzzy lookup per candidate;
a hit appends an item and records the candidate's `original_line` in
`matched_candidates`. -/
def dictPass (fuzzy : String → Option (DictRow × ℚ)) :
    List Candidate → List ItemDict × List String
  | [] => ([], [])
  | c :: cs =>
    let rest := dictPass fuzzy cs
    match fuzzy c.name with
    | some (row, confidence) =>
      (mkDictItem c row confidence :: rest.1, c.original_line :: rest.2)
    | none => rest

/-- The acceptance test of the semantic-fallback stage (main.py 506):
`llm_result.get('is_food_item') and llm_result.get('canonical_name') !=
'unknown'`. -/
def llmPositive (r : LLMParse) : Bool :=
  r.is_food_item ∧ r.canonical_name ≠ "unknown"

/-- Semantic-fallback pass over the unmatched candidates
(main.py 503-521).  `logOk = false` means the unknown-log append raises
(`log_unknown_item` has no handler, so the exception escapes to the
function-level handler): the pass returns `none` and no log line is
written. -/
def llmPass (llm : String → LLMParse) (logOk : Bool) :
    List Candidate → List LogEntry × Option (List ItemDict)
  | [] => ([], some [])
  | c :: cs =>
    let r := llm c.original_line
    if llmPositive r then
      let rest := llmPass llm logOk cs
      (rest.1, (rest.2).map (mkLLMItem c r :: ·))
    else
      if logOk then
        let rest := llmPass llm logOk cs
        (entryOf c :: rest.1, rest.2)
      else ([], none)

/-- No-items fallback (main.py 524-539): log every candidate (again)
and append it as an unknown item. -/
def fallbackPass (logOk : Bool) :
    List Candidate → List LogEntry × Option (List ItemDict)
  | [] => ([], some [])
  | c :: cs =>
    if logOk then
      let rest := fallbackPass logOk cs
      (entryOf c :: rest.1, (rest.2).map (mkUnknownItem c :: ·))
    else ([], none)

/-- The candidates not claimed by the dictionary pass (main.py 500). -/
def unmatchedOf (fuzzy : String → Option (DictRow × ℚ))
    (cands : List Candidate) : List Candidate :=
  cands.filter (fun c => !(dictPass fuzzy cands).2.contains c.original_line)

/-- The lines handed to the semantic-fallback collaborator
(main.py 503-504: one `call_llm_for_semantic_parse(candidate
['original_line'])` per unmatched candidate). -/
def llmQueriedLines (fuzzy : String → Option (DictRow × ℚ))
    (cands : List Candidate) : List String :=
  (unmatchedOf fuzzy cands).map (·.original_line)

/-- Resolution core (main.py 479-539): dictionary pass, semantic
fallback on the unmatched candidates, then the no-items fallback.
Returns the unknown-log lines written and `none` if an exception was
raised (only the log append can raise here). -/
def resolveCandidates (fuzzy : String → Option (DictRow × ℚ))
    (llm : String → LLMParse) (logOk : Bool) (cands : List Candidate) :
    List LogEntry × Option (List ItemDict) :=
  let ditems := (dictPass fuzzy cands).1
  match llmPass llm logOk (unmatchedOf fuzzy cands) with
  | (log1, none) => (log1, none)
  | (log1, some litems) =>
    let items := ditems ++ litems
    if items.isEmpty then
      let (log2, uitems) := fallbackPass logOk cands
      (log1 ++ log2, uitems)
    else (log1, some items)

/-- `extract_product_name(line)` (main.py 462-475): split on whitespace,
drop long digit runs (`^[0-9]{6,}$`), long code tokens (`^[A-Z0-9]{6,}$`),
price tokens (`^\$?\d+\.\d{2}$`) and tokens of length ≤ 2; return the
first fully-alphabetic survivor, else the original line. -/
def isPriceTok (t : List Char) : Bool :=
  let t := if t.head? = some '$' then t.drop 1 else t
  let ds := t.takeWhile isDigitChar
  let rest := t.drop ds.length
  ¬ ds.isEmpty ∧
    (match rest with
     | '.' :: d1 :: d2 :: [] => isDigitChar d1 && isDigitChar d2
     | _ => false) = true

def extract_product_name (line : String) : String :=
  let tokens := pySplit line.toList
  let filtered := tokens.filter (fun t =>
    ¬ (6 ≤ t.length ∧ t.all isDigitChar) ∧
    ¬ (6 ≤ t.length ∧ t.all (fun c => isUpperChar c ∨ isDigitChar c)) ∧
    ¬ isPriceTok t ∧
    2 < t.length)
  match filtered.find? (fun t => ¬ t.isEmpty ∧ t.all isAlphaChar) with
  | some t => String.mk t
  | none => line

/-- The candidate-name rewrite loop (main.py 476-477). -/
def renameCandidate (c : Candidate) : Candidate :=
  { c with name := extract_product_name c.original_line }

/-- The dict returned by `extract_receipt_info` (main.py 540-553).  On
the success path `merchant`/`date` pass through `safe_str`
(`None ↦ ""`); the exception handler returns genuine `None` fields and
an empty item list. -/
structure ExtractResult where
  items : List ItemDict
  merchant : Option String
  total : Option ℚ
  date : Option String
deriving DecidableEq

/-- Merchant, total and date extraction (main.py 288-343): pure regex
scans over the text, kept abstract as one oracle value; none of these
scans can raise (their `float` call is guarded by `try/except
ValueError`). -/
structure MetaInfo where
  merchant : Option String
  total : Option ℚ
  date : Option String

/-- `extract_receipt_info` from the candidate list on: the name rewrite
(476-477), the resolution waterfall (479-539), the result dict (540-545)
and the function-level exception handler (546-553), which catches the
unknown-log `IOError` and returns the empty result. -/
def resolveReceipt (meta : MetaInfo) (fuzzy : String → Option (DictRow × ℚ))
    (llm : String → LLMParse) (logOk : Bool) (cands : List Candidate) :
    List LogEntry × ExtractResult :=
  let cands := cands.map renameCandidate
  match resolveCandidates fuzzy llm logOk cands with
  | (log, some items) =>
    (log, ⟨items, some (meta.merchant.getD ""), meta.total,
           some (meta.date.getD "")⟩)
  | (log, none) => (log, ⟨[], none, none, none⟩)

/-! ### `calculate_carbon_emissions` (main.py 618-666) -/

/-- One loop iteration of `calculate_carbon_emissions`: `none` when the
item is skipped by `is_likely_food_item`, else the enhanced item and the
amount added to the running total.  `llmEst` is
`estimate_emissions_with_llm(item_name, quantity, total_price)`
(main.py 555-592), which returns `None` on missing key, request failure
or malformed JSON. -/
def calcOne (llmEst : String → ℚ → ℚ → Option ℚ) (it : ItemDict) :
    Option (ItemDict × ℚ) :=
  let item_name := it.name
  let total_price := it.total_price.getD 0
  let quantity := it.quantity.getD 1
  if ¬ is_likely_food_item item_name then none
  else
    let step :
        Option ℚ × String × ℚ :=
      match it.emissions_kg_per_kg with
      | some f => (some (f * quantity), "dataset", it.confidence.getD (4/5))
      | none => (llmEst item_name quantity total_price, "ai_estimate", 1/2)
    let co2 := step.1.getD 0
    let final : ℚ × ℚ × String :=
      if 50 < co2 then (50, 3/10, "Capped estimate")
      else (co2, step.2.2, step.2.1)
    some ({ it with
              carbon_emissions := some final.1
              confidence := some final.2.1
              source := final.2.2 }, final.1)

/-- `calculate_carbon_emissions(items)` (main.py 618-666): the enhanced
item list and the accumulated total. -/
def calculate_carbon_emissions (llmEst : String → ℚ → ℚ → Option ℚ) :
    List ItemDict → List ItemDict × ℚ
  | [] => ([], 0)
  | it :: rest =>
    match calcOne llmEst it with
    | none => calculate_carbon_emissions llmEst rest
    | some (e, co2) =>
      let t := calculate_carbon_emissions llmEst rest
      (e :: t.1, co2 + t.2)

/-! ### pydantic `ReceiptItem` conversion (main.py 61-71 and 754-769) -/

/-- The `ReceiptItem` pydantic model (main.py 61-71).  Field
constraints: `quantity ≥ 0`, optional numeric fields ≥ 0,
`confidence ≤ 1`. -/
structure ReceiptItem where
  name : String
  quantity : ℚ
  unit_price : Option ℚ
  total_price : Option ℚ
  category : String
  subcategory : String
  carbon_emissions : Option ℚ
  confidence : Option ℚ
  estimated_weight_kg : Option ℚ
  source : String
deriving DecidableEq

def optNonneg : Option ℚ → Bool
  | none => true
  | some x => 0 ≤ x

def optLeOne : Option ℚ → Bool
  | none => true
  | some x => x ≤ 1

/-- The `ReceiptItem(...)` construction (main.py 757-768) including
pydantic validation; `none` models the `ValidationError` that a
constraint violation raises.  `quantity` follows
`safe_float(item.get('quantity', 1.0)) or 1.0` (a zero quantity is
replaced by `1.0` because `0.0` is falsy).  The pipeline dicts never
carry `unit_price` or `subcategory`, so those are `none`/`""`. -/
def mkReceiptItem (it : ItemDict) : Option ReceiptItem :=
  let q0 := it.quantity.getD 1
  let q := if q0 = 0 then 1 else q0
  if 0 ≤ q ∧ optNonneg it.total_price ∧ optNonneg it.carbon_emissions ∧
      optNonneg it.confidence ∧ optLeOne it.confidence ∧
      optNonneg it.estimated_weight_kg then
    some ⟨it.name, q, none, it.total_price, it.category, "",
          it.carbon_emissions, it.confidence, it.estimated_weight_kg,
          it.source⟩
  else none

/-- The conversion loop (main.py 755-769): every enhanced item must
validate for the endpoint to return a record. -/
def validateItems : List ItemDict → Option (List ReceiptItem)
  | [] => some []
  | it :: rest =>
    match mkReceiptItem it, validateItems rest with
    | some r, some rs => some (r :: rs)
    | _, _ => none

/-! ### Candidate extraction (`extract_receipt_info`, main.py 345-456)

The `re` primitives are oracles:
  * `patMatch i line` — `re.search(product_patterns[i], line).groups()`;
  * `lastPrices line` — `[float(m) for m in re.findall(r'(\d+\.?\d*)',
    line)]` (every match of that pattern contains a digit, so `float`
    cannot raise on it);
  * `nameBefore line` — `line[:line.rfind(price_matches[-1])].strip()`
    of the secondary pass (main.py 441-442).
The control flow around them — the skip filters, the `price > 100` /
`price <= 100` guards, the name cleaning and the dedup check — is
embedded concretely. -/

/-- `skip_keywords` (main.py 347-352), verbatim (including the
duplicated `'terminal'`). -/
def skip_keywords : List String :=
  ["total", "tax", "subtotal", "change", "balance", "visa", "debit",
   "tend", "cash", "hst", "gst", "receipt", "thank", "store", "address",
   "phone", "account", "ref", "terminal", "network", "appr", "code",
   "teacher", "appreciation", "walmart.com", "eftdebit", "payfrom",
   "primary", "purchase", "networkid", "terminal"]

/-- `product_indicators` (main.py 419-422), verbatim. -/
def product_indicators : List String :=
  ["COM", "PK", "BDS", "HAIR", "WIPES", "SOCK", "POP", "RS", "BRN",
   "PATROL", "BABY", "DR", "SMITH", "MSANML", "PCSET", "PKBDS",
   "PKHAIR", "PKSOCK"]

/-- `any(keyword in line.lower() for keyword in skip_keywords)`. -/
def lineSkipped (line : List Char) : Bool :=
  skip_keywords.any (fun kw => containsStr kw (lowerL line))

/-- `re.match(r'^[\d\s\.]+$', line)`: the whole line consists of digits,
whitespace and dots (nonempty). -/
def pureNumberLine (line : List Char) : Bool :=
  ¬ line.isEmpty ∧ line.all (fun c => isDigitChar c ∨ pySpace c ∨ c = '.')

/-- Name cleaning (main.py 399-400 / 443-444):
`re.sub(r'[^\w\s]', ' ', s)` then `' '.join(s.split())`. -/
def cleanProductPart (s : String) : String :=
  let repl := s.toList.map (fun c => if isWordChar c ∨ pySpace c then c else ' ')
  String.intercalate " " ((pySplit repl).map String.mk)

/-- The pattern loop of the primary pass (main.py 380-416).  For each
pattern in order: no match → next pattern; a match with an empty
`price_matches` → `break` with no candidate; `price > 100` → `continue`
(the price list is line-wide, identical for every pattern);
`ValueError` cannot occur (see `lastPrices`).  Otherwise the candidate
is built from `groups[1]` (requires ≥ 2 groups and a cleaned name
longer than 2), with `float(groups[0])` as quantity when there are ≥ 3
groups and `groups[0].isdigit()`; in every non-`continue` branch the
loop then `break`s. -/
def tryPatterns (patMatch : Nat → String → Option (List String))
    (prices : List ℚ) (line : String) : List Nat → Option Candidate
  | [] => none
  | i :: is =>
    match patMatch i line with
    | none => tryPatterns patMatch prices line is
    | some groups =>
      match prices.getLast? with
      | none => none
      | some price =>
        if 100 < price then tryPatterns patMatch prices line is
        else if 2 ≤ groups.length then
          let product_part := cleanProductPart ((groups.get? 1).getD "")
          if 2 < product_part.toList.length then
            let quantity : ℚ :=
              if 3 ≤ groups.length ∧ isDigitsTok ((groups.get? 0).getD "").toList
              then (parseDigits ((groups.get? 0).getD "").toList : ℚ)
              else 1
            some ⟨product_part, price, quantity, line⟩
          else none
        else none

/-- The primary candidate pass (main.py 366-416): per stripped line,
skip empty lines, skip-keyword lines and short/pure-number lines, then
run the pattern loop. -/
def firstPass (patMatch : Nat → String → Option (List String))
    (lastPrices : String → List ℚ) : List String → List Candidate
  | [] => []
  | ln :: rest =>
    let line := pyStrip ln
    let tail := firstPass patMatch lastPrices rest
    if line.toList.isEmpty then tail
    else if lineSkipped line.toList then tail
    else if line.toList.length < 3 ∨ pureNumberLine line.toList then tail
    else
      match tryPatterns patMatch (lastPrices line) line [0, 1, 2, 3] with
      | some c => c :: tail
      | none => tail

/-- `any(indicator in line.upper() for indicator in product_indicators)`. -/
def hasIndicator (line : List Char) : Bool :=
  product_indicators.any (fun kw => containsStr kw (upperL line))

/-- Loop body of the secondary product-indicator pass (main.py 424-456)
for one line: skip short/keyword/indicator-free lines, require
`price <= 100`, clean the name, and run the dedup check
(`not any(c['original_line'] == line ...)`) against the accumulated
candidate list before appending. -/
def secondPassLine (lastPrices : String → List ℚ) (nameBefore : String → String)
    (ln : String) (acc : List Candidate) : List Candidate :=
  let line := pyStrip ln
  if line.toList.isEmpty ∨ line.toList.length < 5 then acc
  else if lineSkipped line.toList then acc
  else if ¬ hasIndicator line.toList then acc
  else
    match (lastPrices line).getLast? with
    | none => acc
    | some price =>
      if price ≤ 100 then
        let name_part := cleanProductPart (nameBefore line)
        if 2 < name_part.toList.length then
          if acc.any (fun c => c.original_line = line) then acc
          else acc ++ [⟨name_part, price, 1, line⟩]
        else acc
      else acc

/-- The secondary pass over all lines, threading the growing candidate
list. -/
def secondPass (lastPrices : String → List ℚ) (nameBefore : String → String) :
    List String → List Candidate → List Candidate
  | [], acc => acc
  | ln :: rest, acc =>
    secondPass lastPrices nameBefore rest
      (secondPassLine lastPrices nameBefore ln acc)

/-- The full candidate extraction (main.py 345-456):
`text.split('\n')`, primary pass, then the secondary pass appending to
the primary pass's list. -/
def extractCandidates (patMatch : Nat → String → Option (List String))
    (lastPrices : String → List ℚ) (nameBefore : String → String)
    (text : String) : List Candidate :=
  let lines := splitNl text
  secondPass lastPrices nameBefore lines (firstPass patMatch lastPrices lines)

/-- `extract_receipt_info(text)` (main.py 278-553) end to end:
merchant/date/total scans (`meta`), candidate extraction, name rewrite,
resolution waterfall, result packaging and the function-level exception
handler. -/
def extract_receipt_info (patMatch : Nat → String → Option (List String))
    (lastPrices : String → List ℚ) (nameBefore : String → String)
    (meta : String → MetaInfo) (fuzzy : String → Option (DictRow × ℚ))
    (llm : String → LLMParse) (logOk : Bool) (text : String) :
    List LogEntry × ExtractResult :=
  resolveReceipt (meta text) fuzzy llm logOk
    (extractCandidates patMatch lastPrices nameBefore text)

/-! ### Spec-side weight resolution (for claim C8)

`Modelled from the spec:` spec §4.5 — "estimated weight is resolved by
priority: (a) an explicit weight token parsed from the name/line
(kg/g/lb/oz, converted to kg), else (b) the matched entry's typical
weight, else (c) a price-derived estimate `max(0.1, price /
assumed_price_per_kg)`", with `emissions = emission_factor_per_kg *
estimated_weight_kg * quantity`.  Stages (a) and (b) are passed in as
optional values (the concrete counterexample has neither a weight token
nor a typical weight); the assumed price per kg is the `price / 10.0` of
`emissions_db.estimate_weight_from_name` (emissions_db.py 198). -/
def spec_resolved_weight (tokenW typicalW : Option ℚ) (price assumed : ℚ) : ℚ :=
  match tokenW with
  | some w => w
  | none =>
    match typicalW with
    | some w => w
    | none => max (1/10) (price / assumed)

/-- `Modelled from the spec:` the per-item emissions formula of spec
§4.5 for dictionary/fuzzy items (claim C8). -/
def spec_c8_emissions (factor : ℚ) (tokenW typicalW : Option ℚ)
    (price assumed quantity : ℚ) : ℚ :=
  factor * spec_resolved_weight tokenW typicalW price assumed * quantity

/-! ### Concrete inputs used by counterexamples and witnesses -/

def metaNone : MetaInfo := ⟨none, none, none⟩

def fuzzyNone : String → Option (DictRow × ℚ) := fun _ => none

/-- `estimate_emissions_with_llm` failing (missing key / HTTP error /
malformed JSON): always `None`. -/
def llmEstNone : String → ℚ → ℚ → Option ℚ := fun _ _ _ => none

/-- `estimate_emissions_with_llm` answering `1.0` for everything. -/
def llmEstOne : String → ℚ → ℚ → Option ℚ := fun _ _ _ => some 1

/-- A dictionary-resolved banana item as `extract_receipt_info` builds
it (factor 0.7 kg CO2e/kg from the CSV row, fuzzy score 0.9). -/
def bananaDictItem : ItemDict :=
  ⟨"banana", some (199/100), some 1, some (9/10), "fruits", some (7/10),
   "BANANAS", "BANANAS 1.99", "dictionary", none, none⟩

/-- `bananaDictItem` after `calculate_carbon_emissions` and the
`ReceiptItem` conversion. -/
def bananaReceiptItem : ReceiptItem :=
  ⟨"banana", 1, none, some (199/100), "fruits", "", some (7/10),
   some (9/10), none, "dataset"⟩

def c3cand : Candidate := ⟨"g", 5/2, 1, "Granola 2.50"⟩

/-- A semantic-fallback collaborator that answers positively with a
weight-adjusted estimate of 2.5 kg CO2e. -/
def llmGranola : String → Except Unit LLMParse :=
  fun _ => .ok ⟨true, "banana", "fruits", some (1/2), some (5/2)⟩

/-- The llm-resolved item `extract_receipt_info` builds from `c3cand`
and `llmGranola` (stored estimate 2.5, confidence 0.7). -/
def c3ItemIn : ItemDict :=
  ⟨"banana", some (5/2), some 1, some (7/10), "fruits", none, "Granola",
   "Granola 2.50", "llm", some (1/2), some (5/2)⟩

/-- `c3ItemIn` after `calculate_carbon_emissions` with a second
collaborator estimate of 1.0: re-estimated, confidence 0.5. -/
def c3ItemOut : ItemDict :=
  ⟨"banana", some (5/2), some 1, some (1/2), "fruits", none, "Granola",
   "Granola 2.50", "ai_estimate", some (1/2), some 1⟩

/-- A dictionary-resolved rice item: factor 1 kg CO2e/kg, quantity 1,
price 20, no weight data (the pipeline rows carry none). -/
def riceDictItem : ItemDict :=
  ⟨"rice", some 20, some 1, some (9/10), "grains", some 1, "RICE",
   "RICE 20.00", "dictionary", none, none⟩

def riceItemOut : ItemDict :=
  ⟨"rice", some 20, some 1, some (9/10), "grains", some 1, "RICE",
   "RICE 20.00", "dataset", none, some 1⟩

/-- A dictionary-resolved lamb item (factor 13.3 as in
emissions_db.py); its name contains no `food_keywords` entry. -/
def lambDictItem : ItemDict :=
  ⟨"lamb", some 8, some 1, some (9/10), "meat", some (133/10),
   "LAMB", "LAMB 8.00", "dictionary", none, none⟩

def appleRow : DictRow := ⟨"apple", "fruits", some (2/5)⟩

/-- A `fuzzy_match_food` oracle that recognizes exactly `"Apples"`. -/
def fuzzyApples : String → Option (DictRow × ℚ) :=
  fun n => if n = "Apples" then some (appleRow, 9/10) else none

def candApples : Candidate := ⟨"x", 5/2, 1, "Apples 2.50"⟩

def candWidget : Candidate := ⟨"y", 4, 1, "Widget 4.00"⟩

/-- A semantic-fallback collaborator that recognizes nothing (the safe
fallback for every line). -/
def llmNeg : String → LLMParse := fun _ => llmFallback

def metaEx : MetaInfo := ⟨some "WALMART", some (13/2), some "01/02/2023"⟩

/-- Regex oracles and input for the extraction witness: one line
`"BANANAS 2.00"` whose last monetary match is `2.00`. -/
def pm0 : Nat → String → Option (List String) := fun _ _ => some ["9", "BANANAS"]

def lp0 : String → List ℚ := fun _ => [2]

def nb0 : String → String := fun l => l

def candBanana : Candidate := ⟨"BANANAS", 2, 1, "BANANAS 2.00"⟩

/-- Regex oracles and input for the collaborator-failure witness: two
lines resolving to an `"Apples"` candidate (dictionary hit) and a
`"Widget"` candidate (no hit). -/
def pmW : Nat → String → Option (List String) :=
  fun _ l =>
    if l = "Apples 2.00" then some ["Apples", "Apples"]
    else if l = "Widget 4.00" then some ["Widget", "Widget"]
    else none

def lpW : String → List ℚ :=
  fun l =>
    if l = "Apples 2.00" then [2]
    else if l = "Widget 4.00" then [4]
    else []

def metaW : String → MetaInfo := fun _ => metaEx

/-- A raw semantic-fallback call that always fails (timeout / network
error / malformed response). -/
def llmErrRaw : String → Except Unit LLMParse := fun _ => .error ()

def textW : String := "Apples 2.00\nWidget 4.00"

/-! ## Theorems

Helper lemmas first, then one theorem per claim (with a witness or a
counterexample where required). -/

/-- Any item kept by one `calculate_carbon_emissions` iteration carries
`carbon_emissions = some co2` with `co2` the amount added to the total,
clamped at 50; its confidence is set; its `total_price` and
`estimated_weight_kg` pass through; and it survived the food check. -/
theorem calcOne_shape (llmEst : String → ℚ → ℚ → Option ℚ) (it e : ItemDict)
    (co2 : ℚ) (h : calcOne llmEst it = some (e, co2)) :
    e.carbon_emissions = some co2 ∧ co2 ≤ 50 ∧ (∃ cf, e.confidence = some cf) ∧
    e.total_price = it.total_price ∧
    e.estimated_weight_kg = it.estimated_weight_kg ∧
    is_likely_food_item e.name = true := by
  by_cases hfood : is_likely_food_item it.name = true
  · simp only [calcOne, hfood, not_true, if_false, Bool.true_eq_false,
      ite_false] at h
    rcases hemi : it.emissions_kg_per_kg with _ | f <;> rw [hemi] at h <;>
      simp only [] at h <;>
      split at h <;>
      simp only [Option.some.injEq, Prod.mk.injEq] at h <;>
      obtain ⟨rfl, rfl⟩ := h <;>
      refine ⟨rfl, ?_, ⟨_, rfl⟩, rfl, rfl, by simpa using hfood⟩ <;>
      first
        | exact le_of_not_lt (by assumption)
        | norm_num
  · simp [calcOne, hfood] at h

/-- Items that fail `is_likely_food_item` are skipped. -/
theorem calcOne_skip (llmEst : String → ℚ → ℚ → Option ℚ) (it : ItemDict)
    (h : is_likely_food_item it.name = false) :
    calcOne llmEst it = none := by
  simp [calcOne, h]

/-- Every returned item of the calculator arises from one iteration. -/
theorem mem_calc (llmEst : String → ℚ → ℚ → Option ℚ) (items : List ItemDict)
    (e : ItemDict) (he : e ∈ (calculate_carbon_emissions llmEst items).1) :
    ∃ it co2, calcOne llmEst it = some (e, co2) := by
  induction items with
  | nil => simp [calculate_carbon_emissions] at he
  | cons it rest ih =>
    unfold calculate_carbon_emissions at he
    rcases hc : calcOne llmEst it with _ | ⟨e', co2⟩
    · rw [hc] at he; exact ih he
    · rw [hc] at he
      simp only [List.mem_cons] at he
      rcases he with rfl | he
      · exact ⟨it, co2, hc⟩
      · exact ih he

/-- C1.  For every processed receipt, the total returned by
`calculate_carbon_emissions` equals the exact sum of the
`carbon_emissions` of the items present in the returned list — items
the calculator discards contribute nothing. -/
theorem total_equals_sum_of_returned_items
    (llmEst : String → ℚ → ℚ → Option ℚ) (items : List ItemDict) :
    (calculate_carbon_emissions llmEst items).2 =
      ((calculate_carbon_emissions llmEst items).1.map
        (fun e => e.carbon_emissions.getD 0)).sum := by
  induction items with
  | nil => simp [calculate_carbon_emissions]
  | cons it rest ih =>
    unfold calculate_carbon_emissions
    rcases hc : calcOne llmEst it with _ | ⟨e, co2⟩
    · exact ih
    · have hcarb := (calcOne_shape llmEst it e co2 hc).1
      simp [hcarb, ih]

/-- A validated `ReceiptItem` keeps the dict's carbon and confidence
values, which passed the pydantic `ge=0` / `le=1` checks. -/
theorem mkReceiptItem_shape (it : ItemDict) (r : ReceiptItem)
    (h : mkReceiptItem it = some r) :
    r.carbon_emissions = it.carbon_emissions ∧ r.confidence = it.confidence ∧
    optNonneg it.carbon_emissions = true ∧ optNonneg it.confidence = true ∧
    optLeOne it.confidence = true := by
  simp only [mkReceiptItem] at h
  split at h <;> split at h <;>
    first
      | (rename_i hcond
         simp only [Option.some.injEq] at h
         subst h
         exact ⟨rfl, rfl, hcond.2.2.1, hcond.2.2.2.1, hcond.2.2.2.2.1⟩)
      | exact absurd h (by simp)

/-- Every member of a validated record comes from a validated dict. -/
theorem validate_mem (items : List ItemDict) (rec : List ReceiptItem)
    (h : validateItems items = some rec) (r : ReceiptItem) (hr : r ∈ rec) :
    ∃ it ∈ items, mkReceiptItem it = some r := by
  induction items generalizing rec with
  | nil =>
    simp only [validateItems, Option.some.injEq] at h
    subst h; simp at hr
  | cons it rest ih =>
    unfold validateItems at h
    rcases h1 : mkReceiptItem it with _ | r1 <;> rw [h1] at h
    · simp at h
    · rcases h2 : validateItems rest with _ | rs <;> rw [h2] at h
      · simp at h
      · simp only [Option.some.injEq] at h
        subst h
        rcases List.mem_cons.mp hr with rfl | hr2
        · exact ⟨it, List.mem_cons_self .., h1⟩
        · obtain ⟨it2, hm, he⟩ := ih rs h2 hr2
          exact ⟨it2, List.mem_cons_of_mem _ hm, he⟩

/-- C2.  Every item of a record the endpoint actually returns (the
enhanced items all passed the pydantic `ReceiptItem` validation) has
`carbon_emissions ∈ [0, 50]` and `confidence ∈ [0, 1]`: the upper
emissions bound comes from the calculator's clamp, the lower bounds and
the confidence bounds from the model's field constraints. -/
theorem record_item_bounds (llmEst : String → ℚ → ℚ → Option ℚ)
    (items : List ItemDict) (rec : List ReceiptItem)
    (h : validateItems (calculate_carbon_emissions llmEst items).1 = some rec) :
    ∀ r ∈ rec,
      (∃ c, r.carbon_emissions = some c ∧ 0 ≤ c ∧ c ≤ 50) ∧
      (∃ cf, r.confidence = some cf ∧ 0 ≤ cf ∧ cf ≤ 1) := by
  intro r hr
  obtain ⟨eIt, hmem, hmk⟩ := validate_mem _ _ h r hr
  obtain ⟨it, co2, hco⟩ := mem_calc llmEst _ eIt hmem
  obtain ⟨hcarb, hle, ⟨cf, hcf⟩, -, -, -⟩ := calcOne_shape llmEst it eIt co2 hco
  obtain ⟨hrc, hrcf, hnn, hcfnn, hcfle⟩ := mkReceiptItem_shape eIt r hmk
  constructor
  · refine ⟨co2, by rw [hrc, hcarb], ?_, hle⟩
    rw [hcarb] at hnn
    simpa [optNonneg] using hnn
  · refine ⟨cf, by rw [hrcf, hcf], ?_, ?_⟩
    · rw [hcf] at hcfnn; simpa [optNonneg] using hcfnn
    · rw [hcf] at hcfle; simpa [optLeOne] using hcfle

theorem record_item_bounds_witness :
    (∃ c, bananaReceiptItem.carbon_emissions = some c ∧ 0 ≤ c ∧ c ≤ 50) ∧
    (∃ cf, bananaReceiptItem.confidence = some cf ∧ 0 ≤ cf ∧ cf ≤ 1) := by
  refine record_item_bounds llmEstNone [bananaDictItem] [bananaReceiptItem] ?_
    bananaReceiptItem (by simp)
  simp +decide [validateItems, mkReceiptItem, calculate_carbon_emissions,
    calcOne, bananaDictItem, bananaReceiptItem, llmEstNone, optNonneg, optLeOne]
  norm_num

/-- C10.  The calculator silently removes every item whose name fails
`is_likely_food_item` — filtering them away beforehand changes neither
the returned items nor the total.  `"lamb"` fails the check (it matches
no entry of `food_keywords`), so even a dictionary-resolved lamb item
is removed and contributes nothing. -/
theorem non_food_items_removed :
    (∀ (llmEst : String → ℚ → ℚ → Option ℚ) (items : List ItemDict),
       calculate_carbon_emissions llmEst items =
         calculate_carbon_emissions llmEst
           (items.filter (fun it => is_likely_food_item it.name))) ∧
    is_likely_food_item "lamb" = false ∧
    calculate_carbon_emissions llmEstNone [lambDictItem] = ([], 0) := by
  refine ⟨?_, by decide, ?_⟩
  · intro llmEst items
    induction items with
    | nil => rfl
    | cons it rest ih =>
      simp only [List.filter_cons]
      by_cases hf : is_likely_food_item it.name = true
      · simp only [hf, if_true]
        unfold calculate_carbon_emissions
        rcases hc : calcOne llmEst it with _ | ⟨e, co2⟩ <;> simp [hc, ih]
      · have hf0 : is_likely_food_item it.name = false := by
          simpa using hf
        simp only [hf0, Bool.false_eq_true, if_false]
        have hstep : calculate_carbon_emissions llmEst (it :: rest) =
            calculate_carbon_emissions llmEst rest := by
          simp only [calculate_carbon_emissions, calcOne_skip llmEst it hf0]
        rw [hstep]
        exact ih
  · have hskip : calcOne llmEstNone lambDictItem = none :=
      calcOne_skip _ _ (by decide)
    simp [calculate_carbon_emissions, hskip]

/-- C3 counterexample.  A candidate resolved by the semantic-fallback
stage stores the collaborator's estimate (2.5 kg, confidence 0.7), but
the calculator re-estimates it through a second collaborator call
(answering 1.0): the final item has `carbon_emissions = 1 ≠ 2.5` and
`confidence = 0.5 ≠ 0.7`, with source `'ai_estimate'`. -/
theorem llm_estimate_not_verbatim :
    ((resolveReceipt metaNone fuzzyNone
        (call_llm_for_semantic_parse llmGranola) true [c3cand]).2.items.map
      (fun it => (it.carbon_emissions, it.confidence, it.source))
      = [(some (5/2), some (7/10), "llm")]) ∧
    ((calculate_carbon_emissions llmEstOne
        (resolveReceipt metaNone fuzzyNone
          (call_llm_for_semantic_parse llmGranola) true [c3cand]).2.items).1.map
      (fun it => (it.carbon_emissions, it.confidence, it.source))
      = [(some 1, some (1/2), "ai_estimate")]) ∧
    (some (1 : ℚ) ≠ some ((5 : ℚ)/2)) ∧
    (some ((1 : ℚ)/2) ≠ some ((7 : ℚ)/10)) := by
  refine ⟨?_, ?_, by norm_num, by norm_num⟩ <;>
    (simp +decide [resolveReceipt, resolveCandidates, dictPass, llmPass,
       fallbackPass, unmatchedOf, mkDictItem, mkLLMItem, mkUnknownItem,
       renameCandidate, llmPositive, entryOf, call_llm_for_semantic_parse,
       metaNone, fuzzyNone, llmGranola, c3cand, llmEstOne,
       calculate_carbon_emissions, calcOne])

/-- C3 amended.  For an item without a per-kg factor (every
llm-resolved item), the calculator ignores the stored
`carbon_emissions` and re-estimates through
`estimate_emissions_with_llm`: the final emissions are that second
estimate (0 when it fails), clamped at 50; confidence becomes 0.5
(0.3 when clamped) and the source `'ai_estimate'` (`'Capped
estimate'`). -/
theorem llm_item_reestimated (llmEst : String → ℚ → ℚ → Option ℚ)
    (it e : ItemDict) (co2 : ℚ)
    (hnone : it.emissions_kg_per_kg = none)
    (h : calcOne llmEst it = some (e, co2)) :
    co2 = (if 50 < (llmEst it.name (it.quantity.getD 1)
                     (it.total_price.getD 0)).getD 0
           then 50
           else (llmEst it.name (it.quantity.getD 1)
                  (it.total_price.getD 0)).getD 0) ∧
    e.carbon_emissions = some co2 ∧
    e.confidence = some (if 50 < (llmEst it.name (it.quantity.getD 1)
                                   (it.total_price.getD 0)).getD 0
                         then 3/10 else 1/2) ∧
    e.source = (if 50 < (llmEst it.name (it.quantity.getD 1)
                          (it.total_price.getD 0)).getD 0
                then "Capped estimate" else "ai_estimate") := by
  by_cases hfood : is_likely_food_item it.name = true
  · simp only [calcOne, hfood, hnone, not_true, Bool.true_eq_false,
      if_false] at h
    split at h <;>
      simp only [Option.some.injEq, Prod.mk.injEq] at h <;>
      obtain ⟨rfl, rfl⟩ := h <;>
      rename_i hclamp <;>
      simp [hclamp]
  · simp [calcOne, hfood] at h

theorem llm_item_reestimated_witness :
    (1 : ℚ) = (if (50 : ℚ) < 1 then 50 else 1) ∧
    c3ItemOut.carbon_emissions = some 1 ∧
    c3ItemOut.confidence = some (if (50 : ℚ) < 1 then 3/10 else 1/2) ∧
    c3ItemOut.source = (if (50 : ℚ) < 1 then "Capped estimate"
                        else "ai_estimate") :=
  llm_item_reestimated llmEstOne c3ItemIn c3ItemOut 1 rfl
    (by simp +decide [calcOne, llmEstOne, c3ItemIn, c3ItemOut])

/-- C8 counterexample.  A dictionary-resolved item (factor 1, quantity
1, price 20, no weight token, no typical weight) gets emissions
`factor * quantity = 1` with `estimated_weight_kg = None`, while the
spec's priority formula resolves the weight to `max(0.1, 20/10) = 2`
and prescribes emissions `1 * 2 * 1 = 2 ≠ 1`. -/
theorem dict_emissions_ignore_weight :
    calcOne llmEstNone riceDictItem = some (riceItemOut, 1) ∧
    riceItemOut.carbon_emissions = some 1 ∧
    riceItemOut.estimated_weight_kg = none ∧
    spec_c8_emissions 1 none none 20 10 1 = 2 ∧
    (1 : ℚ) ≠ 2 := by
  refine ⟨?_, rfl, rfl, ?_, by norm_num⟩
  · simp +decide [calcOne, llmEstNone, riceDictItem, riceItemOut]
  · simp [spec_c8_emissions, spec_resolved_weight]
    norm_num

/-- C8 amended.  For a dictionary/fuzzy-resolved item the pipeline
computes `emissions = emission_factor_per_kg * quantity` (clamped at
50): the price and any weight data are ignored, and
`estimated_weight_kg` passes through unchanged (it is `None` for
dictionary items). -/
theorem dict_item_emissions_formula (llmEst : String → ℚ → ℚ → Option ℚ)
    (it e : ItemDict) (co2 f : ℚ)
    (hf : it.emissions_kg_per_kg = some f)
    (h : calcOne llmEst it = some (e, co2)) :
    co2 = (if 50 < f * it.quantity.getD 1 then 50
           else f * it.quantity.getD 1) ∧
    e.carbon_emissions = some co2 ∧
    e.estimated_weight_kg = it.estimated_weight_kg := by
  by_cases hfood : is_likely_food_item it.name = true
  · simp only [calcOne, hfood, hf, not_true, Bool.true_eq_false,
      if_false] at h
    split at h <;>
      simp only [Option.some.injEq, Prod.mk.injEq] at h <;>
      obtain ⟨rfl, rfl⟩ := h <;>
      rename_i hclamp <;>
      simp only [Option.getD_some] at hclamp <;>
      simp [hclamp]
  · simp [calcOne, hfood] at h

theorem dict_item_emissions_formula_witness :
    (1 : ℚ) = (if (50 : ℚ) < 1 * 1 then 50 else 1 * 1) ∧
    riceItemOut.carbon_emissions = some 1 ∧
    riceItemOut.estimated_weight_kg = riceDictItem.estimated_weight_kg :=
  dict_item_emissions_formula llmEstNone riceDictItem riceItemOut 1 1 rfl
    (by simp +decide [calcOne, llmEstNone, riceDictItem, riceItemOut])

/-- With working log appends, the semantic-fallback pass logs exactly
the negatively-answered candidates and keeps the positives, in order. -/
theorem llmPass_ok (llm : String → LLMParse) (cands : List Candidate) :
    llmPass llm true cands =
      ((cands.filter (fun c => !llmPositive (llm c.original_line))).map entryOf,
       some ((cands.filter (fun c => llmPositive (llm c.original_line))).map
         (fun c => mkLLMItem c (llm c.original_line)))) := by
  induction cands with
  | nil => rfl
  | cons c cs ih =>
    unfold llmPass
    by_cases hp : llmPositive (llm c.original_line) = true
    · simp [hp, ih, List.filter_cons]
    · simp [hp, ih, List.filter_cons]

/-- With working log appends, the no-items fallback logs every
candidate and turns every candidate into an unknown item. -/
theorem fallbackPass_ok (cands : List Candidate) :
    fallbackPass true cands =
      (cands.map entryOf, some (cands.map mkUnknownItem)) := by
  induction cands with
  | nil => rfl
  | cons c cs ih => simp [fallbackPass, ih]

/-- If some candidate draws a negative response while the log append
raises, the semantic-fallback pass aborts with nothing logged. -/
theorem llmPass_fail (llm : String → LLMParse) (cands : List Candidate)
    (h : ∃ c ∈ cands, llmPositive (llm c.original_line) = false) :
    llmPass llm false cands = ([], none) := by
  induction cands with
  | nil => simp at h
  | cons c cs ih =>
    unfold llmPass
    by_cases hp : llmPositive (llm c.original_line) = true
    · have hcs : ∃ c ∈ cs, llmPositive (llm c.original_line) = false := by
        rcases h with ⟨d, hd, hdneg⟩
        rcases List.mem_cons.mp hd with rfl | hd2
        · rw [hp] at hdneg; cases hdneg
        · exact ⟨d, hd2, hdneg⟩
      simp [hp, ih hcs]
    · simp [hp]

/-- Full characterization of the resolution core with working log
appends: either something resolved (items = dictionary hits followed by
llm hits, log = the unclaimed candidates once), or nothing did (items =
every candidate as unknown, log = the unclaimed candidates and then
every candidate again). -/
theorem resolveCandidates_eq (fuzzy : String → Option (DictRow × ℚ))
    (llm : String → LLMParse) (cands : List Candidate) :
    resolveCandidates fuzzy llm true cands =
      (if ((dictPass fuzzy cands).1 ++
            ((unmatchedOf fuzzy cands).filter
              (fun c => llmPositive (llm c.original_line))).map
              (fun c => mkLLMItem c (llm c.original_line))).isEmpty
       then (((unmatchedOf fuzzy cands).filter
               (fun c => !llmPositive (llm c.original_line))).map entryOf ++
             cands.map entryOf,
             some (cands.map mkUnknownItem))
       else (((unmatchedOf fuzzy cands).filter
               (fun c => !llmPositive (llm c.original_line))).map entryOf,
             some ((dictPass fuzzy cands).1 ++
               ((unmatchedOf fuzzy cands).filter
                 (fun c => llmPositive (llm c.original_line))).map
                 (fun c => mkLLMItem c (llm c.original_line))))) := by
  simp only [resolveCandidates, llmPass_ok, fallbackPass_ok]

/-- A failing log append with at least one negatively-answered
unmatched candidate aborts the whole resolution. -/
theorem resolveCandidates_fail (fuzzy : String → Option (DictRow × ℚ))
    (llm : String → LLMParse) (cands : List Candidate)
    (h : ∃ c ∈ unmatchedOf fuzzy cands,
           llmPositive (llm c.original_line) = false) :
    resolveCandidates fuzzy llm false cands = ([], none) := by
  simp only [resolveCandidates, llmPass_fail llm _ h]

/-- C4 amended.  An unclaimed candidate is logged once and yields no
output item whenever at least one candidate resolves (via dictionary or
the semantic fallback); only when nothing resolves does every candidate
become an unknown item (source `'unknown'`, confidence 0.3, category
`'unknown'`), and then every unclaimed candidate is logged a second
time by the fallback loop. -/
theorem unclaimed_candidate_handling (fuzzy : String → Option (DictRow × ℚ))
    (llm : String → LLMParse) (cands : List Candidate) :
    resolveCandidates fuzzy llm true cands =
      (let ditems := (dictPass fuzzy cands).1
       let unmatched := unmatchedOf fuzzy cands
       let pos := unmatched.filter (fun c => llmPositive (llm c.original_line))
       let neg := unmatched.filter (fun c => !llmPositive (llm c.original_line))
       let resolved := ditems ++ pos.map (fun c => mkLLMItem c (llm c.original_line))
       if resolved.isEmpty
       then (neg.map entryOf ++ cands.map entryOf,
             some (cands.map mkUnknownItem))
       else (neg.map entryOf, some resolved)) :=
  resolveCandidates_eq fuzzy llm cands

/-- C4 counterexample.  With one dictionary-resolved candidate and one
candidate unclaimed by every stage, the unclaimed candidate is logged
once but does not become an item: the output has exactly one item,
whose source is `'dictionary'` — no `'unknown'` item exists. -/
theorem unclaimed_candidate_dropped :
    (resolveReceipt metaEx fuzzyApples llmNeg true [candApples, candWidget]).1
      = [⟨"Widget", "Widget 4.00"⟩] ∧
    ((resolveReceipt metaEx fuzzyApples llmNeg true
        [candApples, candWidget]).2.items.map (fun it => it.source))
      = ["dictionary"] := by
  constructor <;> decide

/-- C5 counterexample.  The same two candidates, with the unknown-log
append succeeding vs raising: on success the record keeps the
dictionary item, on failure the returned items list is empty — the
items are NOT the same, resolution is affected. -/
theorem log_failure_changes_items :
    ((resolveReceipt metaEx fuzzyApples llmNeg true
        [candApples, candWidget]).2.items.map (fun it => it.source))
      = ["dictionary"] ∧
    (resolveReceipt metaEx fuzzyApples llmNeg false
        [candApples, candWidget]).2.items = [] := by
  constructor <;> decide

/-- C5 amended.  A failing log append never lets an exception escape
`extract_receipt_info` (the catch-all returns), but it aborts
resolution instead of leaving it unaffected: whenever some unmatched
candidate draws a negative semantic-fallback response (forcing an
append), the function returns the empty result and discards every item
resolved so far. -/
theorem log_failure_aborts_resolution (meta : MetaInfo)
    (fuzzy : String → Option (DictRow × ℚ)) (llm : String → LLMParse)
    (cands : List Candidate)
    (h : ∃ c ∈ unmatchedOf fuzzy (cands.map renameCandidate),
           llmPositive (llm c.original_line) = false) :
    resolveReceipt meta fuzzy llm false cands
      = ([], ⟨[], none, none, none⟩) := by
  simp only [resolveReceipt]
  rw [resolveCandidates_fail fuzzy llm _ h]

theorem log_failure_aborts_resolution_witness :
    resolveReceipt metaEx fuzzyApples llmNeg false [candApples, candWidget]
      = ([], ⟨[], none, none, none⟩) :=
  log_failure_aborts_resolution metaEx fuzzyApples llmNeg
    [candApples, candWidget] (by decide)

/-- A fuzzy-matched candidate's line lands in `matched_candidates`. -/
theorem dictPass_matched (fuzzy : String → Option (DictRow × ℚ))
    (cands : List Candidate) (c : Candidate) (hc : c ∈ cands)
    (hm : (fuzzy c.name).isSome = true) :
    c.original_line ∈ (dictPass fuzzy cands).2 := by
  induction cands with
  | nil => simp at hc
  | cons d ds ih =>
    unfold dictPass
    rcases List.mem_cons.mp hc with rfl | hc2
    · rcases hfz : fuzzy c.name with _ | ⟨row, conf⟩
      · rw [hfz] at hm; simp at hm
      · simp [hfz]
    · rcases hfz : fuzzy d.name with _ | ⟨row, conf⟩ <;>
        simp only [hfz] <;> [skip; simp only [List.mem_cons]] <;>
        first
          | exact ih hc2
          | exact Or.inr (ih hc2)

/-- C7.  A candidate matched by the dictionary stage is never among the
lines handed to the semantic-fallback collaborator: the waterfall skips
later stages once an earlier one succeeded. -/
theorem dictionary_hit_not_queried (fuzzy : String → Option (DictRow × ℚ))
    (cands : List Candidate) (c : Candidate) (hc : c ∈ cands)
    (hm : (fuzzy c.name).isSome = true) :
    c.original_line ∉ llmQueriedLines fuzzy cands := by
  intro hmem
  obtain ⟨d, hd, heq⟩ := List.mem_map.mp hmem
  have h2 := (List.mem_filter.mp hd).2
  rw [heq] at h2
  have h3 := dictPass_matched fuzzy cands c hc hm
  simp only [Bool.not_eq_true'] at h2
  simp at h2
  exact h2 h3

theorem dictionary_hit_not_queried_witness :
    candApples.original_line ∉
      llmQueriedLines fuzzyApples
        ([candApples, candWidget].map renameCandidate) :=
  dictionary_hit_not_queried fuzzyApples _ (renameCandidate candApples)
    (List.mem_map_of_mem renameCandidate (List.mem_cons_self ..)) (by decide)

/-- The pattern loop only emits candidates whose line-wide price passed
the `price > 100` guard. -/
theorem tryPatterns_price_le (patMatch : Nat → String → Option (List String))
    (prices : List ℚ) (line : String) (idxs : List Nat) (c : Candidate)
    (h : tryPatterns patMatch prices line idxs = some c) : c.price ≤ 100 := by
  induction idxs with
  | nil => simp [tryPatterns] at h
  | cons i is ih =>
    unfold tryPatterns at h
    rcases hp : patMatch i line with _ | groups <;> simp only [hp] at h
    · exact ih h
    · rcases hl : prices.getLast? with _ | price <;> simp only [hl] at h
      · exact absurd h (by simp)
      · split at h
        · exact ih h
        · rename_i hprice
          split at h
          · split at h
            · simp only [Option.some.injEq] at h
              subst h
              simpa using le_of_not_lt hprice
            · simp at h
          · simp at h

/-- Every candidate of the primary pass has `price ≤ 100`. -/
theorem firstPass_price (patMatch : Nat → String → Option (List String))
    (lastPrices : String → List ℚ) (lines : List String) :
    ∀ c ∈ firstPass patMatch lastPrices lines, c.price ≤ 100 := by
  induction lines with
  | nil => simp [firstPass]
  | cons ln rest ih =>
    intro c hc
    simp only [firstPass] at hc
    split at hc
    · exact ih c hc
    · split at hc
      · exact ih c hc
      · split at hc
        · exact ih c hc
        · rcases htp : tryPatterns patMatch (lastPrices (pyStrip ln))
              (pyStrip ln) [0, 1, 2, 3] with _ | c0 <;> rw [htp] at hc
          · exact ih c hc
          · rcases List.mem_cons.mp hc with rfl | hc2
            · exact tryPatterns_price_le _ _ _ _ c htp
            · exact ih c hc2

/-- One secondary-pass step only appends candidates with
`price ≤ 100`. -/
theorem secondPassLine_price (lastPrices : String → List ℚ)
    (nameBefore : String → String) (ln : String) (acc : List Candidate)
    (hacc : ∀ c ∈ acc, c.price ≤ 100) :
    ∀ c ∈ secondPassLine lastPrices nameBefore ln acc, c.price ≤ 100 := by
  intro c hc
  simp only [secondPassLine] at hc
  split at hc
  · exact hacc c hc
  · split at hc
    · exact hacc c hc
    · split at hc
      · exact hacc c hc
      · rcases hl : (lastPrices (pyStrip ln)).getLast? with _ | price <;>
          simp only [hl] at hc
        · exact hacc c hc
        · split at hc
          · rename_i hple
            split at hc
            · split at hc
              · exact hacc c hc
              · rcases List.mem_append.mp hc with hc2 | hc3
                · exact hacc c hc2
                · simp only [List.mem_singleton] at hc3
                  subst hc3
                  simpa using hple
            · exact hacc c hc
          · exact hacc c hc

/-- The whole secondary pass preserves the price bound. -/
theorem secondPass_price (lastPrices : String → List ℚ)
    (nameBefore : String → String) (lines : List String) :
    ∀ acc, (∀ c ∈ acc, c.price ≤ 100) →
      ∀ c ∈ secondPass lastPrices nameBefore lines acc, c.price ≤ 100 := by
  induction lines with
  | nil =>
    intro acc hacc c hc
    simpa [secondPass] using hacc c hc
  | cons ln rest ih =>
    intro acc hacc c hc
    unfold secondPass at hc
    exact ih _ (secondPassLine_price _ _ _ _ hacc) c hc

/-- Dictionary items: source `'dictionary'` and price provenance. -/
theorem dictPass_items_shape (fuzzy : String → Option (DictRow × ℚ))
    (cands : List Candidate) :
    ∀ it ∈ (dictPass fuzzy cands).1,
      it.source = "dictionary" ∧ ∃ c ∈ cands, it.total_price = some c.price := by
  induction cands with
  | nil => simp [dictPass]
  | cons d ds ih =>
    intro it hit
    simp only [dictPass] at hit
    rcases hfz : fuzzy d.name with _ | ⟨row, conf⟩ <;> rw [hfz] at hit
    · obtain ⟨hs, c, hc, hp⟩ := ih it hit
      exact ⟨hs, c, List.mem_cons_of_mem _ hc, hp⟩
    · rcases List.mem_cons.mp hit with rfl | hit2
      · exact ⟨rfl, d, List.mem_cons_self .., rfl⟩
      · obtain ⟨hs, c, hc, hp⟩ := ih it hit2
        exact ⟨hs, c, List.mem_cons_of_mem _ hc, hp⟩

/-- Semantic-fallback items: price provenance. -/
theorem llmPass_items (llm : String → LLMParse) (logOk : Bool)
    (cands : List Candidate) (log : List LogEntry) (litems : List ItemDict)
    (h : llmPass llm logOk cands = (log, some litems)) :
    ∀ it ∈ litems, ∃ c ∈ cands, it.total_price = some c.price := by
  induction cands generalizing log litems with
  | nil =>
    simp only [llmPass, Prod.mk.injEq, Option.some.injEq] at h
    obtain ⟨-, rfl⟩ := h
    simp
  | cons c cs ih =>
    simp only [llmPass] at h
    by_cases hp : llmPositive (llm c.original_line) = true
    · rw [if_pos hp] at h
      rcases hrest : llmPass llm logOk cs with ⟨log2, m2⟩
      rw [hrest] at h
      rcases m2 with _ | lits2
      · simp at h
      · simp only [Option.map_some, Option.map_some', Prod.mk.injEq,
          Option.some.injEq] at h
        obtain ⟨-, rfl⟩ := h
        intro it hit
        rcases List.mem_cons.mp hit with rfl | hit2
        · exact ⟨c, List.mem_cons_self .., rfl⟩
        · obtain ⟨d, hd, hpr⟩ := ih log2 lits2 (by rw [hrest]) it hit2
          exact ⟨d, List.mem_cons_of_mem _ hd, hpr⟩
    · rw [if_neg hp] at h
      split at h
      · rcases hrest : llmPass llm logOk cs with ⟨log2, m2⟩
        rw [hrest] at h
        rcases m2 with _ | lits2
        · simp at h
        · simp only [Prod.mk.injEq, Option.some.injEq] at h
          obtain ⟨-, rfl⟩ := h
          intro it hit
          obtain ⟨d, hd, hpr⟩ := ih log2 lits2 (by rw [hrest]) it hit
          exact ⟨d, List.mem_cons_of_mem _ hd, hpr⟩
      · simp at h

/-- Unknown-fallback items: price provenance. -/
theorem fallbackPass_items (logOk : Bool) (cands : List Candidate)
    (log : List LogEntry) (uitems : List ItemDict)
    (h : fallbackPass logOk cands = (log, some uitems)) :
    ∀ it ∈ uitems, ∃ c ∈ cands, it.total_price = some c.price := by
  induction cands generalizing log uitems with
  | nil =>
    simp only [fallbackPass, Prod.mk.injEq, Option.some.injEq] at h
    obtain ⟨-, rfl⟩ := h
    simp
  | cons c cs ih =>
    simp only [fallbackPass] at h
    split at h
    · rcases hrest : fallbackPass logOk cs with ⟨log2, m2⟩
      rw [hrest] at h
      rcases m2 with _ | us2
      · simp at h
      · simp only [Option.map_some, Option.map_some', Prod.mk.injEq,
          Option.some.injEq] at h
        obtain ⟨-, rfl⟩ := h
        intro it hit
        rcases List.mem_cons.mp hit with rfl | hit2
        · exact ⟨c, List.mem_cons_self .., rfl⟩
        · obtain ⟨d, hd, hpr⟩ := ih log2 us2 (by rw [hrest]) it hit2
          exact ⟨d, List.mem_cons_of_mem _ hd, hpr⟩
    · simp at h

/-- Every resolved item's `total_price` is some candidate's extracted
price, whatever the log behaviour. -/
theorem resolved_items_price (fuzzy : String → Option (DictRow × ℚ))
    (llm : String → LLMParse) (logOk : Bool) (cands : List Candidate)
    (log : List LogEntry) (items : List ItemDict)
    (h : resolveCandidates fuzzy llm logOk cands = (log, some items)) :
    ∀ it ∈ items, ∃ c ∈ cands, it.total_price = some c.price := by
  simp only [resolveCandidates] at h
  rcases hl : llmPass llm logOk (unmatchedOf fuzzy cands) with ⟨log1, m⟩
  rcases m with _ | litems <;> simp only [hl] at h
  · exact absurd h (by simp)
  · split at h
    · rcases hf : fallbackPass logOk cands with ⟨log2, m2⟩
      rcases m2 with _ | uitems <;> simp only [hf] at h
      · exact absurd h (by simp)
      · simp only [Prod.mk.injEq, Option.some.injEq] at h
        obtain ⟨-, rfl⟩ := h
        exact fallbackPass_items logOk cands log2 uitems hf
    · simp only [Prod.mk.injEq, Option.some.injEq] at h
      obtain ⟨-, rfl⟩ := h
      intro it hit
      rcases List.mem_append.mp hit with h1 | h2
      · obtain ⟨-, c, hc, hp⟩ := dictPass_items_shape fuzzy cands it h1
        exact ⟨c, hc, hp⟩
      · obtain ⟨c, hc, hp⟩ := llmPass_items llm logOk _ log1 litems hl it h2
        exact ⟨c, List.mem_of_mem_filter hc, hp⟩

/-- C6.  No extracted candidate carries a price above 100 (both passes
guard on it), and consequently every item of the returned record has
`total_price ≤ 100`: over-priced lines never reach resolution nor the
output. -/
theorem high_price_candidates_discarded
    (patMatch : Nat → String → Option (List String))
    (lastPrices : String → List ℚ) (nameBefore : String → String)
    (meta : String → MetaInfo) (fuzzy : String → Option (DictRow × ℚ))
    (llm : String → LLMParse) (logOk : Bool) (text : String) :
    (∀ c ∈ extractCandidates patMatch lastPrices nameBefore text,
       c.price ≤ 100) ∧
    (∀ it ∈ (extract_receipt_info patMatch lastPrices nameBefore meta fuzzy
        llm logOk text).2.items,
       ∃ p, it.total_price = some p ∧ p ≤ 100) := by
  have hcand : ∀ c ∈ extractCandidates patMatch lastPrices nameBefore text,
      c.price ≤ 100 := by
    intro c hc
    simp only [extractCandidates] at hc
    exact secondPass_price _ _ _ _ (firstPass_price _ _ _) c hc
  refine ⟨hcand, ?_⟩
  intro it hit
  simp only [extract_receipt_info, resolveReceipt] at hit
  rcases hres : resolveCandidates fuzzy llm logOk
      ((extractCandidates patMatch lastPrices nameBefore text).map
        renameCandidate) with ⟨log, m⟩
  rw [hres] at hit
  rcases m with _ | items
  · simp at hit
  · simp only at hit
    obtain ⟨c, hcmem, hpr⟩ :=
      resolved_items_price fuzzy llm logOk _ log items hres it hit
    obtain ⟨c0, hc0, rfl⟩ := List.mem_map.mp hcmem
    exact ⟨c0.price, hpr, hcand c0 hc0⟩

theorem high_price_candidates_discarded_witness :
    candBanana.price ≤ 100 :=
  (high_price_candidates_discarded pm0 lp0 nb0 metaW fuzzyNone llmNeg true
    "BANANAS 2.00").1 candBanana (by decide)

/-- C9.  When every raw semantic-fallback call fails (timeout, network
error, malformed response — all caught inside
`call_llm_for_semantic_parse`, which then returns the safe fallback),
`extract_receipt_info` still completes: the resolution core returns a
result (no exception), every unmatched candidate is appended to the
unknown-items log, and every returned item is either a dictionary item
or an unknown-degraded item (source `'unknown'`, confidence 0.3,
category `'unknown'`) — the collaborator failure never becomes a
whole-request failure. -/
theorem collaborator_failure_degrades
    (patMatch : Nat → String → Option (List String))
    (lastPrices : String → List ℚ) (nameBefore : String → String)
    (meta : String → MetaInfo) (fuzzy : String → Option (DictRow × ℚ))
    (llmRaw : String → Except Unit LLMParse) (text : String)
    (hfail : ∀ line, llmRaw line = Except.error ()) :
    ((resolveCandidates fuzzy (call_llm_for_semantic_parse llmRaw) true
        ((extractCandidates patMatch lastPrices nameBefore text).map
          renameCandidate)).2.isSome = true) ∧
    (∀ c ∈ unmatchedOf fuzzy
        ((extractCandidates patMatch lastPrices nameBefore text).map
          renameCandidate),
       entryOf c ∈
         (extract_receipt_info patMatch lastPrices nameBefore meta fuzzy
           (call_llm_for_semantic_parse llmRaw) true text).1) ∧
    (∀ it ∈ (extract_receipt_info patMatch lastPrices nameBefore meta fuzzy
        (call_llm_for_semantic_parse llmRaw) true text).2.items,
       it.source = "dictionary" ∨
       (it.source = "unknown" ∧ it.confidence = some (3/10) ∧
        it.category = "unknown")) := by
  have hneg : ∀ line,
      llmPositive (call_llm_for_semantic_parse llmRaw line) = false := by
    intro line
    simp [call_llm_for_semantic_parse, hfail line, llmPositive, llmFallback]
  have hpos : ((unmatchedOf fuzzy
      ((extractCandidates patMatch lastPrices nameBefore text).map
        renameCandidate)).filter
      (fun c => llmPositive
        (call_llm_for_semantic_parse llmRaw c.original_line))) = [] :=
    List.filter_eq_nil_iff.mpr (fun c _ => by simp [hneg])
  have hnegall : ((unmatchedOf fuzzy
      ((extractCandidates patMatch lastPrices nameBefore text).map
        renameCandidate)).filter
      (fun c => !llmPositive
        (call_llm_for_semantic_parse llmRaw c.original_line))) =
      unmatchedOf fuzzy
        ((extractCandidates patMatch lastPrices nameBefore text).map
          renameCandidate) :=
    List.filter_eq_self.mpr (fun c _ => by simp [hneg])
  have heq := resolveCandidates_eq fuzzy (call_llm_for_semantic_parse llmRaw)
    ((extractCandidates patMatch lastPrices nameBefore text).map
      renameCandidate)
  rw [hpos, hnegall] at heq
  simp only [List.map_nil, List.append_nil] at heq
  by_cases hemp : ((dictPass fuzzy
      ((extractCandidates patMatch lastPrices nameBefore text).map
        renameCandidate)).1).isEmpty = true
  · rw [if_pos hemp] at heq
    refine ⟨by rw [heq] ; rfl, ?_, ?_⟩
    · intro c hc
      simp only [extract_receipt_info, resolveReceipt, heq]
      exact List.mem_append_left _ (List.mem_map_of_mem _ hc)
    · intro it hit
      simp only [extract_receipt_info, resolveReceipt, heq] at hit
      obtain ⟨c, -, rfl⟩ := List.mem_map.mp hit
      exact Or.inr ⟨rfl, rfl, rfl⟩
  · rw [if_neg hemp] at heq
    refine ⟨by rw [heq] ; rfl, ?_, ?_⟩
    · intro c hc
      simp only [extract_receipt_info, resolveReceipt, heq]
      exact List.mem_map_of_mem _ hc
    · intro it hit
      simp only [extract_receipt_info, resolveReceipt, heq] at hit
      exact Or.inl (dictPass_items_shape fuzzy _ it hit).1

theorem collaborator_failure_degrades_witness :
    ((resolveCandidates fuzzyApples (call_llm_for_semantic_parse llmErrRaw)
        true ((extractCandidates pmW lpW nb0 textW).map
          renameCandidate)).2.isSome = true) ∧
    (∀ c ∈ unmatchedOf fuzzyApples
        ((extractCandidates pmW lpW nb0 textW).map renameCandidate),
       entryOf c ∈
         (extract_receipt_info pmW lpW nb0 metaW fuzzyApples
           (call_llm_for_semantic_parse llmErrRaw) true textW).1) ∧
    (∀ it ∈ (extract_receipt_info pmW lpW nb0 metaW fuzzyApples
        (call_llm_for_semantic_parse llmErrRaw) true textW).2.items,
       it.source = "dictionary" ∨
       (it.source = "unknown" ∧ it.confidence = some (3/10) ∧
        it.category = "unknown")) :=
  collaborator_failure_degrades pmW lpW nb0 metaW fuzzyApples llmErrRaw textW
    (fun _ => rfl)

end Emissionary
